import Mathlib

/-!
In-memory rate limiter (`server/libs/limiter/mem_limiter.go`)

A shallow embedding of the token-bucket limiter and the properties proved about it.

Modelling conventions.

* `int64` and `int` values are integers (`Int`); every arithmetic operation of the source
  is followed by `wrap64`, the two's-complement reduction to 64 bits (`int` is taken to be
  64 bits wide, as on the 64-bit targets the server is built for).
* `time.Now().Unix()` is an input: every function that reads the clock takes the reading
  as a parameter `now`.  One `MemLimiter.Access` call uses a single reading, i.e. the clock
  does not tick between the evaluation of a bucket and its refill inside one call.
* A `*Bucket` is `Option Bucket`; `none` is the `nil` pointer.  The map
  `map[string]*Bucket` is a finite association list with distinct keys whose values are
  such pointers, so a key may be bound to `nil`.
* A call that dereferences a `nil` bucket panics; a panicking call has result `none`.
* The mutex only serialises calls; the embedding is the sequential semantics of one call.
-/

namespace Limiter

/-! ## Machine integers -/

/-- Two's-complement reduction of an integer to the `int64` range. -/
def wrap64 (x : Int) : Int :=
  (x + 9223372036854775808) % 18446744073709551616 - 9223372036854775808

/-- The values an `int64` (or 64-bit `int`) variable can hold. -/
def inInt64 (x : Int) : Prop :=
  -9223372036854775808 ≤ x ∧ x ≤ 9223372036854775807

instance (x : Int) : Decidable (inInt64 x) := by
  unfold inInt64; infer_instance

/-! ## Constants -/

def accessOk : Int := 0
def accessNoToken : Int := 1
def accessShouldReset : Int := 2

/-- Go `error` values; `nil` is `none : Option GoError`. -/
structure GoError where
  msg : String
  deriving DecidableEq, Repr

def errLimiterIsFull : GoError := ⟨"Limiter reachs its capacity"⟩

/-- Timestamp `duration` seconds after the clock reading `now` (`now() + duration`). -/
def after (now duration : Int) : Int :=
  wrap64 (now + duration)

/-! ## Bucket -/

structure Bucket where
  ResetAt : Int
  Tokens : Int
  deriving DecidableEq, Repr

/-- Constructor `NewBucket`; `none` is the `nil` result. -/
def NewBucket (now resetCyc tokens : Int) : Option Bucket :=
  if resetCyc ≤ 0 ∨ tokens < 0 then none
  else some { ResetAt := after now resetCyc, Tokens := tokens }

/-- Method `(*Bucket).Access`: evaluation of a bucket against the clock reading `now`. -/
def Bucket.Access (b : Bucket) (now : Int) : Int :=
  if b.ResetAt > now ∧ b.Tokens = 0 then accessNoToken
  else if b.ResetAt > now ∧ b.Tokens > 0 then accessOk
  else accessShouldReset

/-- Method `(*Bucket).Reset`. -/
def Bucket.Reset (_b : Bucket) (now resetCyc resetTokens : Int) : Bucket :=
  { ResetAt := after now resetCyc, Tokens := wrap64 (resetTokens - 1) }

/-- Method `(*Bucket).Minus`. -/
def Bucket.Minus (b : Bucket) : Bucket :=
  { b with Tokens := wrap64 (b.Tokens - 1) }

/-! ## Limiter -/

/-- The Go map `map[string]*Bucket`. -/
abbrev BucketMap := AList (fun _ : String => Option Bucket)

/-- Go `len(m)`. -/
def BucketMap.len (m : BucketMap) : Int := (m.entries.length : Int)

structure MemLimiter where
  buckets : BucketMap
  cap : Int
  rstCyc : Int
  rstTokens : Int

/-- Constructor `New`; `none` is the `nil` result. -/
def New (cap rstCyc rstTokens : Int) : Option MemLimiter :=
  if cap ≤ 0 ∨ rstCyc ≤ 0 ∨ rstTokens < 0 then none
  else some { cap := cap, buckets := ∅, rstCyc := rstCyc, rstTokens := rstTokens }

/-- What a returning `Access` call yields: the limiter afterwards and the pair
`(bool, error)`. -/
structure AccessResult where
  limiter : MemLimiter
  allowed : Bool
  err : Option GoError

/-- Method `(*MemLimiter).Access` at clock reading `now`.  The result is `none` when the
call panics on a `nil` bucket. -/
def MemLimiter.Access (l : MemLimiter) (id : String) (now : Int) : Option AccessResult :=
  match l.buckets.lookup id with
  | none =>
    if BucketMap.len l.buckets ≥ l.cap then
      some ⟨l, false, some errLimiterIsFull⟩
    else
      some ⟨{ l with buckets := l.buckets.insert id (NewBucket now l.rstCyc l.rstTokens) },
        true, none⟩
  | some none => none
  | some (some bucket) =>
    let r := bucket.Access now
    if r = accessNoToken then
      some ⟨l, false, none⟩
    else if r = accessOk then
      some ⟨{ l with buckets := l.buckets.replace id (some bucket.Minus) }, true, none⟩
    else
      let bucket' := bucket.Reset now l.rstCyc l.rstTokens
      some ⟨{ l with buckets := l.buckets.replace id (some bucket') }, true, none⟩

/-- Method `GetSize`. -/
def MemLimiter.GetSize (l : MemLimiter) : Int := BucketMap.len l.buckets

/-- Method `SetCap`. -/
def MemLimiter.SetCap (l : MemLimiter) (cap : Int) : MemLimiter :=
  if cap > l.cap then { l with cap := cap } else l

/-- Method `GetCap`. -/
def MemLimiter.GetCap (l : MemLimiter) : Int := l.cap

/-- Method `SetResetCyc`. -/
def MemLimiter.SetResetCyc (l : MemLimiter) (rstCyc : Int) : MemLimiter :=
  { l with rstCyc := rstCyc }

/-- Method `GetResetCyc`. -/
def MemLimiter.GetResetCyc (l : MemLimiter) : Int := l.rstCyc

/-- Method `SetRstTokens`. -/
def MemLimiter.SetRstTokens (l : MemLimiter) (rstTokens : Int) : MemLimiter :=
  { l with rstTokens := rstTokens }

/-- Method `GetRstTokens`. -/
def MemLimiter.GetRstTokens (l : MemLimiter) : Int := l.rstTokens

/-! ## Sequences of calls -/

/-- One call of a public method of `MemLimiter`, with its arguments (and, for `Access`,
the clock reading during the call). -/
inductive Op where
  | access (id : String) (now : Int)
  | getSize
  | setCap (cap : Int)
  | getCap
  | setResetCyc (rstCyc : Int)
  | getResetCyc
  | setRstTokens (rstTokens : Int)
  | getRstTokens

/-- The limiter after one call; `none` when the call panics. -/
def MemLimiter.apply (l : MemLimiter) : Op → Option MemLimiter
  | .access id now => (l.Access id now).map (fun r => r.limiter)
  | .getSize => some l
  | .setCap cap => some (l.SetCap cap)
  | .getCap => some l
  | .setResetCyc rstCyc => some (l.SetResetCyc rstCyc)
  | .getResetCyc => some l
  | .setRstTokens rstTokens => some (l.SetRstTokens rstTokens)
  | .getRstTokens => some l

/-- The limiter after a sequence of calls, none of which panicked.  (A panicking `Access`
panics while evaluating the bucket, before any write, so recovering from it would give
no further states.) -/
def MemLimiter.run (l : MemLimiter) : List Op → Option MemLimiter
  | [] => some l
  | op :: ops => (l.apply op).bind (fun l' => l'.run ops)

/-- States reachable from a successful `New` by public calls. -/
def Reachable (l : MemLimiter) : Prop :=
  ∃ cap rstCyc rstTokens ops l₀,
    New cap rstCyc rstTokens = some l₀ ∧ l₀.run ops = some l

/-- Consecutive `Access` calls, each given as the identifier and the clock reading during
the call: the final limiter and the returned pairs `(bool, error)`, in call order; `none`
when a call panics. -/
def MemLimiter.accessCalls (l : MemLimiter) :
    List (String × Int) → Option (MemLimiter × List (Bool × Option GoError))
  | [] => some (l, [])
  | (id, now) :: rest =>
    match l.Access id now with
    | none => none
    | some r =>
      match r.limiter.accessCalls rest with
      | none => none
      | some (l', rs) => some (l', (r.allowed, r.err) :: rs)

/-! ## Invariant -/

/-- The number of tracked identifiers is at most the capacity, and the capacity is
positive. -/
def CapInv (l : MemLimiter) : Prop :=
  BucketMap.len l.buckets ≤ l.cap ∧ 0 < l.cap

/-- The tokens of every tracked bucket are an `int` value that is not negative, and the
reset-token count is an `int` value of at least 1. -/
def TokensInv (l : MemLimiter) : Prop :=
  1 ≤ l.rstTokens ∧ l.rstTokens ≤ 9223372036854775807 ∧
    ∀ id b, l.buckets.lookup id = some (some b) →
      0 ≤ b.Tokens ∧ b.Tokens ≤ 9223372036854775807

/-- The reset-token count is 0 and the bucket of `id` holds -1 tokens, as a refill with
that count leaves it. -/
def ZeroRefilled (l : MemLimiter) (id : String) : Prop :=
  l.rstTokens = 0 ∧ ∃ b, l.buckets.lookup id = some (some b) ∧ b.Tokens = -1

/-! ## Conditions on sequences of calls -/

/-- Every integer argument of the call is an `int64` / `int` value. -/
def Op.inRange : Op → Prop
  | .access _ now => inInt64 now
  | .setCap cap => inInt64 cap
  | .setResetCyc rstCyc => inInt64 rstCyc
  | .setRstTokens rstTokens => inInt64 rstTokens
  | .getSize => True
  | .getCap => True
  | .getResetCyc => True
  | .getRstTokens => True

/-- No `SetRstTokens` call of the sequence lowers the reset-token count, `tokens` being
the count before the sequence. -/
def tokensNeverLowered (tokens : Int) : List Op → Prop
  | [] => True
  | op :: ops =>
    match op with
    | .setRstTokens t => tokens ≤ t ∧ tokensNeverLowered t ops
    | _ => tokensNeverLowered tokens ops

/-- The call is not a `SetRstTokens`. -/
def Op.keepsRstTokens : Op → Prop
  | .setRstTokens _ => False
  | _ => True

/-! ## Sample states -/

/-- A limiter of capacity 1 that tracks `"a"`. -/
def sampleFull : MemLimiter :=
  ⟨(∅ : BucketMap).insert "a" (some ⟨1060, 1⟩), 1, 60, 1⟩

/-- A limiter tracking `"a"` with two tokens left in a window that ends at 100. -/
def sampleTwoTokens : MemLimiter :=
  ⟨(∅ : BucketMap).insert "a" (some ⟨100, 2⟩), 4, 60, 3⟩

/-- The limiter after `New(2, 60, 1); Access("a") at 0; SetCap(1); SetResetCyc(-5)`. -/
def sampleReached : MemLimiter :=
  ⟨(∅ : BucketMap).insert "a" (some ⟨60, 1⟩), 2, -5, 1⟩

/-- A limiter with reset-token count 0 whose bucket for `"a"` was refilled to -1 tokens. -/
def sampleZero : MemLimiter :=
  ⟨(∅ : BucketMap).insert "a" (some ⟨60, -1⟩), 2, 60, 0⟩

/-- The limiter `sampleZero` after `Access("b")` at 5, `SetCap(7)`, `Access("a")` at 10. -/
def sampleZeroLater : MemLimiter :=
  ⟨((∅ : BucketMap).insert "a" (some ⟨70, -1⟩)).insert "b" (some ⟨65, 0⟩), 7, 60, 0⟩

/-- The limiter after `New(2, 60, 1)`, three `Access("a")` at 0, 1, 2, `SetRstTokens(3)`
and `Access("a")` at 100. -/
def sampleRaised : MemLimiter :=
  ⟨(∅ : BucketMap).insert "a" (some ⟨160, 2⟩), 2, 60, 3⟩

/-! ## Facts about the map -/

theorem dlookup_kreplace_self {β : String → Type} (a : String) (b : β a) :
    ∀ l : List (Sigma β), a ∈ l.keys → List.dlookup a (List.kreplace a b l) = some b := by
  intro l
  induction l with
  | nil => intro h; simp at h
  | cons x xs ih =>
    intro h
    unfold List.kreplace
    by_cases hx : a = x.1
    · have e : (fun s : Sigma β => if a = s.1 then some (Sigma.mk a b) else none) x
          = some (Sigma.mk a b) := by simp [hx]
      rw [List.lookmap_cons_some _ _ e]
      exact List.dlookup_cons_eq _ _ _
    · have e : (fun s : Sigma β => if a = s.1 then some (Sigma.mk a b) else none) x
          = none := by simp [hx]
      rw [List.lookmap_cons_none _ _ e]
      rw [List.dlookup_cons_ne _ _ hx]
      have h' : a ∈ xs.keys := by
        simp only [List.keys_cons, List.mem_cons] at h
        rcases h with h | h
        · exact absurd h hx
        · exact h
      exact ih h'

theorem dlookup_kreplace_ne {β : String → Type} (a a' : String) (b : β a) (hne : a' ≠ a) :
    ∀ l : List (Sigma β), List.dlookup a' (List.kreplace a b l) = List.dlookup a' l := by
  intro l
  induction l with
  | nil => rfl
  | cons x xs ih =>
    unfold List.kreplace
    by_cases hx : a = x.1
    · have e : (fun s : Sigma β => if a = s.1 then some (Sigma.mk a b) else none) x
          = some (Sigma.mk a b) := by simp [hx]
      rw [List.lookmap_cons_some _ _ e]
      rw [List.dlookup_cons_ne _ _ hne, List.dlookup_cons_ne _ _ (by rw [← hx]; exact hne)]
    · have e : (fun s : Sigma β => if a = s.1 then some (Sigma.mk a b) else none) x
          = none := by simp [hx]
      rw [List.lookmap_cons_none _ _ e]
      by_cases hx' : a' = x.1
      · obtain ⟨k, v⟩ := x
        simp only at hx'
        subst hx'
        rw [List.dlookup_cons_eq, List.dlookup_cons_eq]
      · rw [List.dlookup_cons_ne _ _ hx', List.dlookup_cons_ne _ _ hx']
        exact ih

theorem lookup_replace_self (m : BucketMap) (id : String) (v : Option Bucket)
    (h : id ∈ m) : (m.replace id v).lookup id = some v :=
  @dlookup_kreplace_self (fun _ => Option Bucket) id v m.entries (AList.mem_keys.1 h)

theorem lookup_replace_ne (m : BucketMap) (id id' : String) (v : Option Bucket)
    (h : id' ≠ id) : (m.replace id v).lookup id' = m.lookup id' :=
  @dlookup_kreplace_ne (fun _ => Option Bucket) id id' v h m.entries

theorem mem_of_lookup_eq_some {m : BucketMap} {id : String} {v : Option Bucket}
    (h : m.lookup id = some v) : id ∈ m :=
  AList.lookup_isSome.1 (by rw [h]; rfl)

theorem len_replace (m : BucketMap) (id : String) (v : Option Bucket) :
    BucketMap.len (m.replace id v) = BucketMap.len m := by
  have h := congrArg List.length (AList.keys_replace id v m)
  unfold BucketMap.len
  simp only [AList.keys, List.keys, List.length_map] at h
  rw [h]

theorem len_insert_of_lookup_none (m : BucketMap) (id : String) (v : Option Bucket)
    (h : m.lookup id = none) : BucketMap.len (m.insert id v) = BucketMap.len m + 1 := by
  unfold BucketMap.len
  rw [AList.insert_entries_of_neg (AList.lookup_eq_none.1 h)]
  simp

theorem len_nonneg (m : BucketMap) : 0 ≤ BucketMap.len m := by
  unfold BucketMap.len
  exact Int.natCast_nonneg _

/-! ## Facts about machine integers -/

theorem wrap64_of_inInt64 {x : Int} (h : inInt64 x) : wrap64 x = x := by
  unfold inInt64 at h
  unfold wrap64
  omega

theorem inInt64_wrap64 (x : Int) : inInt64 (wrap64 x) := by
  unfold inInt64 wrap64
  omega

/-! ## One `Access` call, case by case -/

theorem Access_untracked_full (l : MemLimiter) (id : String) (now : Int)
    (hid : l.buckets.lookup id = none) (hfull : l.cap ≤ BucketMap.len l.buckets) :
    l.Access id now = some ⟨l, false, some errLimiterIsFull⟩ := by
  unfold MemLimiter.Access
  rw [hid]
  simp only [ge_iff_le, hfull, if_true]

theorem Access_untracked_room (l : MemLimiter) (id : String) (now : Int)
    (hid : l.buckets.lookup id = none) (hroom : BucketMap.len l.buckets < l.cap) :
    l.Access id now =
      some ⟨{ l with buckets := l.buckets.insert id (NewBucket now l.rstCyc l.rstTokens) },
        true, none⟩ := by
  unfold MemLimiter.Access
  rw [hid]
  simp only [ge_iff_le, not_le.2 hroom, if_false]

theorem Access_nil_bucket (l : MemLimiter) (id : String) (now : Int)
    (hid : l.buckets.lookup id = some none) : l.Access id now = none := by
  unfold MemLimiter.Access
  rw [hid]

theorem Access_no_token (l : MemLimiter) (id : String) (now : Int) (b : Bucket)
    (hid : l.buckets.lookup id = some (some b)) (hwin : now < b.ResetAt)
    (htok : b.Tokens = 0) : l.Access id now = some ⟨l, false, none⟩ := by
  unfold MemLimiter.Access
  rw [hid]
  simp [Bucket.Access, hwin, htok]

theorem Access_ok (l : MemLimiter) (id : String) (now : Int) (b : Bucket)
    (hid : l.buckets.lookup id = some (some b)) (hwin : now < b.ResetAt)
    (htok : 0 < b.Tokens) :
    l.Access id now =
      some ⟨{ l with buckets := l.buckets.replace id (some b.Minus) }, true, none⟩ := by
  unfold MemLimiter.Access
  rw [hid]
  have h0 : b.Tokens ≠ 0 := by omega
  simp [Bucket.Access, hwin, htok, h0, accessOk, accessNoToken]

theorem Access_should_reset (l : MemLimiter) (id : String) (now : Int) (b : Bucket)
    (hid : l.buckets.lookup id = some (some b))
    (hexp : b.ResetAt ≤ now ∨ b.Tokens < 0) :
    l.Access id now =
      some ⟨{ l with
        buckets := l.buckets.replace id (some (b.Reset now l.rstCyc l.rstTokens)) },
        true, none⟩ := by
  unfold MemLimiter.Access
  rw [hid]
  have h1 : ¬ (b.ResetAt > now ∧ b.Tokens = 0) := by omega
  have h2 : ¬ (b.ResetAt > now ∧ b.Tokens > 0) := by omega
  simp [Bucket.Access, h1, h2, accessOk, accessNoToken, accessShouldReset]

/-! ## The four-call scenario -/

/-- C1, as stated, fails: on `New(2, 60, 1)` with all calls at the instant
`now = 1700000000`, the calls `Access("a")`, `Access("a")`, `Access("b")`, `Access("c")`
do not return `(true, nil)`, `(false, nil)`, `(true, nil)`, `(false, err)` for any
error `err`. -/
theorem scenario_second_access_not_denied :
    ¬ ∃ l₀ l e, New 2 60 1 = some l₀ ∧
      l₀.accessCalls [("a", 1700000000), ("a", 1700000000), ("b", 1700000000),
          ("c", 1700000000)]
        = some (l, [(true, none), (false, none), (true, none), (false, some e)]) := by
  rintro ⟨l₀, l, e, h₀, h⟩
  have h₁ : New 2 60 1 = some ⟨∅, 2, 60, 1⟩ := by simp [New]
  rw [h₁] at h₀
  cases h₀
  have h₂ : (((MemLimiter.mk ∅ 2 60 1).accessCalls
      [("a", 1700000000), ("a", 1700000000), ("b", 1700000000), ("c", 1700000000)]).map
        (fun p => p.2)) =
      some [(true, none), (true, none), (true, none), (false, some errLimiterIsFull)] := by
    decide
  rw [h] at h₂
  simp at h₂

/-- C1, amended: on `New(2, 60, 1)` with all calls at one instant `now`, `Access("a")`
returns `(true, nil)`, the second `Access("a")` returns `(true, nil)` as well (creation
left the bucket's one token unconsumed), `Access("b")` returns `(true, nil)` and
`Access("c")` returns `false` with the capacity error. -/
theorem scenario_results (now : Int) :
    ∃ l₀ l, New 2 60 1 = some l₀ ∧
      l₀.accessCalls [("a", now), ("a", now), ("b", now), ("c", now)]
        = some (l, [(true, none), (true, none), (true, none),
            (false, some errLimiterIsFull)]) := by
  have hab : ("b" : String) ≠ "a" := by decide
  have hca : ("c" : String) ≠ "a" := by decide
  have hcb : ("c" : String) ≠ "b" := by decide
  -- first call: the bucket of "a" is created with its one token
  let b₀ : Bucket := ⟨after now 60, 1⟩
  let m₁ : BucketMap := (∅ : BucketMap).insert "a" (some b₀)
  have s₁ : (MemLimiter.mk ∅ 2 60 1).Access "a" now = some ⟨⟨m₁, 2, 60, 1⟩, true, none⟩ := by
    rw [Access_untracked_room _ _ _ (by simp) (by simp [BucketMap.len])]
    simp [NewBucket, m₁, b₀]
  -- second call: granted, by consumption or by refill
  have s₂ : ∃ b₁, (MemLimiter.mk m₁ 2 60 1).Access "a" now
      = some ⟨⟨m₁.replace "a" (some b₁), 2, 60, 1⟩, true, none⟩ := by
    have hl : m₁.lookup "a" = some (some b₀) := AList.lookup_insert _
    by_cases hw : now < b₀.ResetAt
    · exact ⟨b₀.Minus, Access_ok _ _ _ b₀ hl hw (by simp [b₀])⟩
    · exact ⟨b₀.Reset now 60 1, Access_should_reset _ _ _ b₀ hl (Or.inl (not_lt.1 hw))⟩
  obtain ⟨b₁, s₂⟩ := s₂
  let m₂ : BucketMap := m₁.replace "a" (some b₁)
  have len₁ : BucketMap.len m₁ = 1 := by
    simp [m₁, BucketMap.len]
  have len₂ : BucketMap.len m₂ = 1 := by rw [len_replace, len₁]
  have lk₁ : ∀ k : String, k ≠ "a" → m₂.lookup k = none := by
    intro k hk
    rw [lookup_replace_ne _ _ _ _ hk, AList.lookup_insert_ne hk]
    exact AList.lookup_empty _
  -- third call: the bucket of "b" is created
  let m₃ : BucketMap := m₂.insert "b" (NewBucket now 60 1)
  have s₃ : (MemLimiter.mk m₂ 2 60 1).Access "b" now = some ⟨⟨m₃, 2, 60, 1⟩, true, none⟩ :=
    Access_untracked_room _ _ _ (lk₁ "b" hab) (by rw [len₂]; norm_num)
  have len₃ : BucketMap.len m₃ = 2 := by
    rw [len_insert_of_lookup_none _ _ _ (lk₁ "b" hab), len₂]; rfl
  have lk₃ : m₃.lookup "c" = none := by
    rw [AList.lookup_insert_ne hcb]
    exact lk₁ "c" hca
  -- fourth call: the limiter is full
  have s₄ : (MemLimiter.mk m₃ 2 60 1).Access "c" now
      = some ⟨⟨m₃, 2, 60, 1⟩, false, some errLimiterIsFull⟩ :=
    Access_untracked_full _ _ _ lk₃ (by rw [len₃])
  refine ⟨⟨∅, 2, 60, 1⟩, ⟨m₃, 2, 60, 1⟩, by simp [New], ?_⟩
  simp only [MemLimiter.accessCalls, s₁, s₂, s₃, s₄]

/-! ## Capacity errors -/

/-- C2: when the identifier is not tracked and the number of tracked identifiers equals
the capacity, `Access` returns `allowed = false` with a non-nil error and the limiter
(bucket map, count, configuration) is the one before the call. -/
theorem access_at_capacity_rejects (l : MemLimiter) (id : String) (now : Int)
    (hid : l.buckets.lookup id = none) (hfull : l.GetSize = l.GetCap) :
    ∃ r, l.Access id now = some r ∧ r.allowed = false ∧ r.err ≠ none ∧
      r.limiter = l ∧ r.limiter.GetSize = l.GetSize := by
  refine ⟨⟨l, false, some errLimiterIsFull⟩, ?_, rfl, by simp, rfl, rfl⟩
  exact Access_untracked_full l id now hid (by
    unfold MemLimiter.GetSize MemLimiter.GetCap at hfull
    rw [hfull])

theorem access_at_capacity_rejects_witness :
    sampleFull.buckets.lookup "b" = none ∧ sampleFull.GetSize = sampleFull.GetCap ∧
      ∃ r, sampleFull.Access "b" 1000 = some r ∧ r.allowed = false ∧ r.err ≠ none ∧
        r.limiter = sampleFull ∧ r.limiter.GetSize = sampleFull.GetSize :=
  ⟨by decide, by decide,
    access_at_capacity_rejects sampleFull "b" 1000 (by decide) (by decide)⟩

/-- C3: `Access` returns a non-nil error exactly when the identifier is not tracked and
the number of tracked identifiers has reached the capacity; a call on a tracked
identifier with a usable bucket, or on a new identifier below capacity, returns with a
nil error; and a returned error always comes with `allowed = false`. -/
theorem access_error_iff_capacity (l : MemLimiter) (id : String) (now : Int) :
    ((∃ r, l.Access id now = some r ∧ r.err ≠ none) ↔
      (l.buckets.lookup id = none ∧ l.GetCap ≤ l.GetSize)) ∧
    ((∃ b, l.buckets.lookup id = some (some b)) ∨
        (l.buckets.lookup id = none ∧ l.GetSize < l.GetCap) →
      ∃ r, l.Access id now = some r ∧ r.err = none) ∧
    (∀ r, l.Access id now = some r → r.err ≠ none → r.allowed = false) := by
  unfold MemLimiter.GetSize MemLimiter.GetCap
  rcases hl : l.buckets.lookup id with _ | _ | b
  · -- not tracked
    by_cases hfull : l.cap ≤ BucketMap.len l.buckets
    · rw [Access_untracked_full l id now hl hfull]
      refine ⟨⟨fun _ => ⟨rfl, hfull⟩, fun _ => ⟨_, rfl, by simp⟩⟩, ?_, ?_⟩
      · rintro (⟨b, hb⟩ | ⟨_, hlt⟩)
        · cases hb
        · omega
      · intro r hr _
        cases hr
        rfl
    · rw [Access_untracked_room l id now hl (not_le.1 hfull)]
      refine ⟨⟨?_, fun h => absurd h.2 hfull⟩, fun _ => ⟨_, rfl, rfl⟩, ?_⟩
      · rintro ⟨r, hr, he⟩
        cases hr
        exact absurd rfl he
      · intro r hr he
        cases hr
        exact absurd rfl he
  · -- tracked, bound to nil: the call panics
    rw [Access_nil_bucket l id now hl]
    refine ⟨⟨?_, ?_⟩, ?_, ?_⟩
    · rintro ⟨r, hr, _⟩
      cases hr
    · rintro ⟨h, _⟩
      cases h
    · rintro (⟨b, hb⟩ | ⟨h, _⟩)
      · cases hb
      · cases h
    · intro r hr
      cases hr
  · -- tracked with a bucket
    have hnil : ∃ r, l.Access id now = some r ∧ r.err = none := by
      by_cases hw : now < b.ResetAt
      · rcases lt_trichotomy b.Tokens 0 with ht | ht | ht
        · exact ⟨_, Access_should_reset l id now b hl (Or.inr ht), rfl⟩
        · exact ⟨_, Access_no_token l id now b hl hw ht, rfl⟩
        · exact ⟨_, Access_ok l id now b hl hw ht, rfl⟩
      · exact ⟨_, Access_should_reset l id now b hl (Or.inl (not_lt.1 hw)), rfl⟩
    obtain ⟨r₀, hr₀, he₀⟩ := hnil
    refine ⟨⟨?_, ?_⟩, fun _ => ⟨r₀, hr₀, he₀⟩, ?_⟩
    · rintro ⟨r, hr, he⟩
      rw [hr₀] at hr
      cases hr
      exact absurd he₀ he
    · rintro ⟨h, _⟩
      cases h
    · intro r hr he
      rw [hr₀] at hr
      cases hr
      exact absurd he₀ he

/-! ## First access of a new identifier -/

/-- Under a configuration with `rstCyc > 0` and `rstTokens >= 0`, the first `Access` of an
untracked identifier below capacity returns `(true, nil)`, adds one tracked identifier,
and binds it to a bucket holding `rstTokens` tokens with `ResetAt = now + rstCyc`. -/
theorem Access_fresh_valid_config (l : MemLimiter) (id : String) (now : Int)
    (hid : l.buckets.lookup id = none) (hroom : l.GetSize < l.GetCap)
    (hcyc : 0 < l.rstCyc) (htok : 0 ≤ l.rstTokens) :
    ∃ r, l.Access id now = some r ∧ r.allowed = true ∧ r.err = none ∧
      r.limiter.GetSize = l.GetSize + 1 ∧
      r.limiter.buckets.lookup id = some (some ⟨wrap64 (now + l.rstCyc), l.rstTokens⟩) := by
  refine ⟨_, Access_untracked_room l id now hid hroom, rfl, rfl, ?_, ?_⟩
  · exact len_insert_of_lookup_none _ _ _ hid
  · have hb : NewBucket now l.rstCyc l.rstTokens
        = some ⟨wrap64 (now + l.rstCyc), l.rstTokens⟩ := by
      unfold NewBucket after
      rw [if_neg (by omega)]
    simp only [hb]
    exact AList.lookup_insert _

/-- C4 at the failing input `New(1, 1, 0); SetResetCyc(0); Access("a")`: the call returns
`(true, nil)` and the count goes from 0 to 1, but `"a"` is bound to the `nil` that
`NewBucket(0, 0)` returned, not to a bucket holding `rstTokens` tokens. -/
theorem access_after_SetResetCyc_zero_stores_nil :
    ∃ l₀ r, New 1 1 0 = some l₀ ∧ l₀.GetSize = 0 ∧
      (l₀.SetResetCyc 0).Access "a" 1700000000 = some r ∧
      r.allowed = true ∧ r.err = none ∧ r.limiter.GetSize = 1 ∧
      r.limiter.buckets.lookup "a" = some none :=
  ⟨⟨∅, 1, 1, 0⟩, ⟨⟨(∅ : BucketMap).insert "a" none, 1, 0, 0⟩, true, none⟩,
    by simp [New], by decide, by
      rw [Access_untracked_room _ _ _ (by decide) (by decide)]
      simp [MemLimiter.SetResetCyc, NewBucket],
    rfl, rfl, by decide, by decide⟩

/-! ## Consumption inside a window -/

theorem accessCalls_tokens_aux (id : String) (n : Nat) :
    ∀ (l : MemLimiter) (b : Bucket) (ts : List Int),
      l.buckets.lookup id = some (some b) → b.Tokens = (n : Int) →
      (n : Int) ≤ 9223372036854775807 → ts.length = n + 1 →
      (∀ t ∈ ts, t < b.ResetAt) →
      ∃ l', l.accessCalls (ts.map (fun t => (id, t)))
        = some (l', List.replicate n (true, none) ++ [(false, none)]) := by
  induction n with
  | zero =>
    intro l b ts hid htok _ hlen hwin
    match ts, hlen with
    | [t], _ =>
      have hA := Access_no_token l id t b hid (hwin t (by simp)) (by simpa using htok)
      exact ⟨l, by simp [MemLimiter.accessCalls, hA]⟩
  | succ n ih =>
    intro l b ts hid htok hmax hlen hwin
    match ts, hlen with
    | t :: rest, hlen =>
      have hpos : 0 < b.Tokens := by rw [htok]; push_cast; omega
      have hA := Access_ok l id t b hid (hwin t (by simp)) hpos
      have hminus : b.Minus.Tokens = (n : Int) := by
        show wrap64 (b.Tokens - 1) = (n : Int)
        rw [htok]
        unfold wrap64
        push_cast at hmax ⊢
        omega
      have hid' : (l.buckets.replace id (some b.Minus)).lookup id = some (some b.Minus) :=
        lookup_replace_self _ _ _ (mem_of_lookup_eq_some hid)
      obtain ⟨l', hl'⟩ := ih { l with buckets := l.buckets.replace id (some b.Minus) }
        b.Minus rest hid' hminus (by push_cast at hmax ⊢; omega) (by simpa using hlen)
        (fun t ht => hwin t (by simp [ht]))
      exact ⟨l', by simp [MemLimiter.accessCalls, hA, hl', List.replicate_succ]⟩

/-- C5: for a tracked identifier whose bucket holds `N > 0` tokens, `N + 1` consecutive
`Access` calls at clock readings all strictly before the bucket's `ResetAt` return
`(true, nil)` for the first `N` and `(false, nil)` for the last (`N` being an `int`
value). -/
theorem tokens_granted_then_denied (l : MemLimiter) (id : String) (b : Bucket)
    (ts : List Int) (hid : l.buckets.lookup id = some (some b))
    (hpos : 0 < b.Tokens) (hrange : inInt64 b.Tokens)
    (hlen : (ts.length : Int) = b.Tokens + 1)
    (hwin : ∀ t ∈ ts, t < b.ResetAt) :
    ∃ l', l.accessCalls (ts.map (fun t => (id, t)))
      = some (l', List.replicate b.Tokens.toNat (true, none) ++ [(false, none)]) := by
  have hn : b.Tokens = (b.Tokens.toNat : Int) := by omega
  exact accessCalls_tokens_aux id b.Tokens.toNat l b ts hid hn
    (by rw [← hn]; exact hrange.2) (by omega) hwin

theorem tokens_granted_then_denied_witness :
    sampleTwoTokens.buckets.lookup "a" = some (some ⟨100, 2⟩) ∧
      ∃ l', sampleTwoTokens.accessCalls [("a", 10), ("a", 99), ("a", 5)]
        = some (l', [(true, none), (true, none), (false, none)]) :=
  ⟨by decide,
    tokens_granted_then_denied sampleTwoTokens "a" ⟨100, 2⟩ [10, 99, 5] (by decide)
      (by decide) (by decide) (by decide) (by decide)⟩

/-! ## Refill of an expired window -/

/-- C6: for a tracked identifier whose bucket has `ResetAt <= now`, `Access` at `now`
returns `(true, nil)` and afterwards the bucket has `ResetAt = now + rstCyc` and
`Tokens = rstTokens - 1` (in `int64` / `int` arithmetic, hence the exact sum and
difference whenever they are representable), whatever token count it had. -/
theorem expired_bucket_refilled (l : MemLimiter) (id : String) (now : Int) (b : Bucket)
    (hid : l.buckets.lookup id = some (some b)) (hexp : b.ResetAt ≤ now) :
    ∃ r b', l.Access id now = some r ∧ r.allowed = true ∧ r.err = none ∧
      r.limiter.buckets.lookup id = some (some b') ∧
      b'.ResetAt = wrap64 (now + l.GetResetCyc) ∧
      b'.Tokens = wrap64 (l.GetRstTokens - 1) ∧
      (inInt64 (now + l.GetResetCyc) → b'.ResetAt = now + l.GetResetCyc) ∧
      (inInt64 (l.GetRstTokens - 1) → b'.Tokens = l.GetRstTokens - 1) := by
  refine ⟨_, b.Reset now l.rstCyc l.rstTokens,
    Access_should_reset l id now b hid (Or.inl hexp), rfl, rfl, ?_, rfl, rfl, ?_, ?_⟩
  · exact lookup_replace_self _ _ _ (mem_of_lookup_eq_some hid)
  · intro h
    exact wrap64_of_inInt64 h
  · intro h
    exact wrap64_of_inInt64 h

theorem expired_bucket_refilled_witness :
    sampleTwoTokens.buckets.lookup "a" = some (some ⟨100, 2⟩) ∧
      ∃ r b', sampleTwoTokens.Access "a" 100 = some r ∧ r.allowed = true ∧ r.err = none ∧
        r.limiter.buckets.lookup "a" = some (some b') ∧
        b'.ResetAt = wrap64 (100 + sampleTwoTokens.GetResetCyc) ∧
        b'.Tokens = wrap64 (sampleTwoTokens.GetRstTokens - 1) ∧
        (inInt64 (100 + sampleTwoTokens.GetResetCyc) →
          b'.ResetAt = 100 + sampleTwoTokens.GetResetCyc) ∧
        (inInt64 (sampleTwoTokens.GetRstTokens - 1) →
          b'.Tokens = sampleTwoTokens.GetRstTokens - 1) :=
  ⟨by decide,
    expired_bucket_refilled sampleTwoTokens "a" 100 ⟨100, 2⟩ (by decide) (by decide)⟩

/-! ## Invariants of reachable states -/

/-- What one returning `Access` call can do to the limiter: nothing, bind a new
identifier while below capacity, or rebind a tracked identifier. -/
theorem Access_limiter_cases (l : MemLimiter) (id : String) (now : Int) (r : AccessResult)
    (h : l.Access id now = some r) :
    r.limiter = l ∨
    (l.buckets.lookup id = none ∧ BucketMap.len l.buckets < l.cap ∧
      ∃ v, r.limiter = { l with buckets := l.buckets.insert id v }) ∨
    (id ∈ l.buckets ∧ ∃ v, r.limiter = { l with buckets := l.buckets.replace id v }) := by
  rcases hl : l.buckets.lookup id with _ | _ | b
  · by_cases hfull : l.cap ≤ BucketMap.len l.buckets
    · rw [Access_untracked_full l id now hl hfull] at h
      cases h
      exact Or.inl rfl
    · rw [Access_untracked_room l id now hl (not_le.1 hfull)] at h
      cases h
      exact Or.inr (Or.inl ⟨rfl, not_le.1 hfull, _, rfl⟩)
  · rw [Access_nil_bucket l id now hl] at h
    cases h
  · have hmem : id ∈ l.buckets := mem_of_lookup_eq_some hl
    by_cases hw : now < b.ResetAt
    · rcases lt_trichotomy b.Tokens 0 with ht | ht | ht
      · rw [Access_should_reset l id now b hl (Or.inr ht)] at h
        cases h
        exact Or.inr (Or.inr ⟨hmem, _, rfl⟩)
      · rw [Access_no_token l id now b hl hw ht] at h
        cases h
        exact Or.inl rfl
      · rw [Access_ok l id now b hl hw ht] at h
        cases h
        exact Or.inr (Or.inr ⟨hmem, _, rfl⟩)
    · rw [Access_should_reset l id now b hl (Or.inl (not_lt.1 hw))] at h
      cases h
      exact Or.inr (Or.inr ⟨hmem, _, rfl⟩)

theorem CapInv_New (cap rstCyc rstTokens : Int) (l : MemLimiter)
    (h : New cap rstCyc rstTokens = some l) : CapInv l := by
  unfold New at h
  split at h
  · cases h
  · cases h
    unfold CapInv BucketMap.len
    simp only [AList.empty_entries, List.length_nil]
    omega

theorem CapInv_apply (l l' : MemLimiter) (op : Op) (hinv : CapInv l)
    (h : l.apply op = some l') : CapInv l' := by
  unfold CapInv at hinv ⊢
  cases op with
  | access id now =>
    simp only [MemLimiter.apply, Option.map_eq_some'] at h
    obtain ⟨r, hr, rfl⟩ := h
    rcases Access_limiter_cases l id now r hr with he | ⟨hid, hlt, v, he⟩ | ⟨_, v, he⟩
    · rw [he]; exact hinv
    · rw [he]
      simp only
      rw [len_insert_of_lookup_none _ _ _ hid]
      omega
    · rw [he]
      simp only
      rw [len_replace]
      exact hinv
  | setCap cap =>
    simp only [MemLimiter.apply, Option.some.injEq] at h
    subst h
    unfold MemLimiter.SetCap
    split
    · simp only
      omega
    · exact hinv
  | setResetCyc c =>
    simp only [MemLimiter.apply, Option.some.injEq] at h
    subst h
    exact hinv
  | setRstTokens t =>
    simp only [MemLimiter.apply, Option.some.injEq] at h
    subst h
    exact hinv
  | getSize => simp only [MemLimiter.apply, Option.some.injEq] at h; subst h; exact hinv
  | getCap => simp only [MemLimiter.apply, Option.some.injEq] at h; subst h; exact hinv
  | getResetCyc => simp only [MemLimiter.apply, Option.some.injEq] at h; subst h; exact hinv
  | getRstTokens => simp only [MemLimiter.apply, Option.some.injEq] at h; subst h; exact hinv

theorem CapInv_run (ops : List Op) : ∀ (l l' : MemLimiter), CapInv l →
    l.run ops = some l' → CapInv l' := by
  induction ops with
  | nil =>
    intro l l' hinv h
    simp only [MemLimiter.run, Option.some.injEq] at h
    subst h
    exact hinv
  | cons op ops ih =>
    intro l l' hinv h
    simp only [MemLimiter.run, Option.bind_eq_some] at h
    obtain ⟨l₁, h₁, h₂⟩ := h
    exact ih l₁ l' (CapInv_apply l l₁ op hinv h₁) h₂

theorem CapInv_of_Reachable (l : MemLimiter) (h : Reachable l) : CapInv l := by
  obtain ⟨cap, rstCyc, rstTokens, ops, l₀, h₀, hrun⟩ := h
  exact CapInv_run ops l₀ l (CapInv_New cap rstCyc rstTokens l₀ h₀) hrun

theorem sampleReached_reachable : Reachable sampleReached :=
  ⟨2, 60, 1, [.access "a" 0, .getSize, .setCap 1, .setResetCyc (-5)], ⟨∅, 2, 60, 1⟩,
    by simp [New], by
      simp [MemLimiter.run, MemLimiter.apply, MemLimiter.Access, NewBucket, after,
        BucketMap.len, MemLimiter.SetCap, MemLimiter.SetResetCyc, sampleReached, wrap64]⟩

/-- C7: in every state reachable from a successful `New` by public calls (`Access`,
`SetCap`, `SetResetCyc`, `SetRstTokens`, getters), the number of tracked identifiers is
at most the current capacity. -/
theorem size_le_cap_of_reachable (l : MemLimiter) (h : Reachable l) :
    l.GetSize ≤ l.GetCap :=
  (CapInv_of_Reachable l h).1

theorem size_le_cap_of_reachable_witness :
    Reachable sampleReached ∧ sampleReached.GetSize ≤ sampleReached.GetCap :=
  ⟨sampleReached_reachable, size_le_cap_of_reachable sampleReached sampleReached_reachable⟩

/-! ## Construction and configuration -/

/-- C8: `New(capacity, cycle, tokens)` yields a limiter exactly when `capacity > 0`,
`cycle > 0` and `tokens >= 0`; that limiter tracks no identifier and its getters return
the three arguments; for every other tuple the result is `nil`. -/
theorem New_iff_valid (cap rstCyc rstTokens : Int) :
    ((∃ l, New cap rstCyc rstTokens = some l) ↔ (0 < cap ∧ 0 < rstCyc ∧ 0 ≤ rstTokens)) ∧
    (¬ (0 < cap ∧ 0 < rstCyc ∧ 0 ≤ rstTokens) → New cap rstCyc rstTokens = none) ∧
    (0 < cap ∧ 0 < rstCyc ∧ 0 ≤ rstTokens →
      ∃ l, New cap rstCyc rstTokens = some l ∧ l.GetSize = 0 ∧ l.buckets = ∅ ∧
        l.GetCap = cap ∧ l.GetResetCyc = rstCyc ∧ l.GetRstTokens = rstTokens) := by
  by_cases hv : cap ≤ 0 ∨ rstCyc ≤ 0 ∨ rstTokens < 0
  · have hn : New cap rstCyc rstTokens = none := by
      unfold New
      rw [if_pos hv]
    rw [hn]
    refine ⟨⟨?_, ?_⟩, fun _ => rfl, ?_⟩
    · rintro ⟨l, hl⟩
      cases hl
    · intro h
      omega
    · intro h
      omega
  · have hs : New cap rstCyc rstTokens = some ⟨∅, cap, rstCyc, rstTokens⟩ := by
      unfold New
      rw [if_neg hv]
    rw [hs]
    refine ⟨⟨fun _ => by omega, fun _ => ⟨_, rfl⟩⟩, ?_, fun _ => ⟨_, rfl, rfl, rfl, rfl, rfl, rfl⟩⟩
    intro h
    omega

/-- C9: after `SetCap(c)` the capacity is the larger of the old capacity and `c`; the
bucket map, the reset cycle and the reset-token count are unchanged. -/
theorem SetCap_is_max (l : MemLimiter) (c : Int) :
    (l.SetCap c).GetCap = max l.GetCap c ∧
    (c ≤ l.GetCap → l.SetCap c = l) ∧
    (l.GetCap < c → (l.SetCap c).GetCap = c) ∧
    (l.SetCap c).buckets = l.buckets ∧
    (l.SetCap c).GetResetCyc = l.GetResetCyc ∧
    (l.SetCap c).GetRstTokens = l.GetRstTokens := by
  unfold MemLimiter.SetCap MemLimiter.GetCap MemLimiter.GetResetCyc MemLimiter.GetRstTokens
  by_cases h : c > l.cap
  · rw [if_pos h]
    refine ⟨?_, ?_, fun _ => rfl, rfl, rfl, rfl⟩
    · simp only
      rw [max_eq_right (le_of_lt h)]
    · intro h'
      omega
  · rw [if_neg h]
    refine ⟨?_, fun _ => rfl, ?_, rfl, rfl, rfl⟩
    · rw [max_eq_left (not_lt.1 h)]
    · intro h'
      omega

/-- C10 at the failing input `New(1, 1, 0); SetResetCyc(0); SetRstTokens(-1)`: the
reached state has `rstCyc = 0` and `rstTokens = -1`, outside `resetCycle > 0` and
`resetTokens >= 0`; the part `capacity > 0` does hold in every reachable state. -/
theorem setters_break_config_invariant :
    (∃ l, Reachable l ∧ l.GetResetCyc = 0 ∧ l.GetRstTokens = -1 ∧
      ¬ (0 < l.GetResetCyc ∧ 0 ≤ l.GetRstTokens ∧ 0 < l.GetCap)) ∧
    (∀ l, Reachable l → 0 < l.GetCap) := by
  refine ⟨⟨⟨∅, 1, 0, -1⟩, ?_, rfl, rfl, by decide⟩, fun l h => (CapInv_of_Reachable l h).2⟩
  exact ⟨1, 1, 0, [.setResetCyc 0, .setRstTokens (-1)], ⟨∅, 1, 1, 0⟩, by simp [New],
    by simp [MemLimiter.run, MemLimiter.apply, MemLimiter.SetResetCyc,
      MemLimiter.SetRstTokens]⟩

/-! ## One `Access` call, in full -/

/-- The five ways an `Access` call returns. -/
theorem Access_result_cases (l : MemLimiter) (id : String) (now : Int) (r : AccessResult)
    (h : l.Access id now = some r) :
    (l.buckets.lookup id = none ∧ l.cap ≤ BucketMap.len l.buckets ∧
      r = ⟨l, false, some errLimiterIsFull⟩) ∨
    (l.buckets.lookup id = none ∧ BucketMap.len l.buckets < l.cap ∧
      r = ⟨{ l with buckets := l.buckets.insert id (NewBucket now l.rstCyc l.rstTokens) },
        true, none⟩) ∨
    (∃ b, l.buckets.lookup id = some (some b) ∧ now < b.ResetAt ∧ b.Tokens = 0 ∧
      r = ⟨l, false, none⟩) ∨
    (∃ b, l.buckets.lookup id = some (some b) ∧ now < b.ResetAt ∧ 0 < b.Tokens ∧
      r = ⟨{ l with buckets := l.buckets.replace id (some b.Minus) }, true, none⟩) ∨
    (∃ b, l.buckets.lookup id = some (some b) ∧ (b.ResetAt ≤ now ∨ b.Tokens < 0) ∧
      r = ⟨{ l with
        buckets := l.buckets.replace id (some (b.Reset now l.rstCyc l.rstTokens)) },
        true, none⟩) := by
  rcases hl : l.buckets.lookup id with _ | _ | b
  · by_cases hfull : l.cap ≤ BucketMap.len l.buckets
    · rw [Access_untracked_full l id now hl hfull] at h
      cases h
      exact Or.inl ⟨rfl, hfull, rfl⟩
    · rw [Access_untracked_room l id now hl (not_le.1 hfull)] at h
      cases h
      exact Or.inr (Or.inl ⟨rfl, not_le.1 hfull, rfl⟩)
  · rw [Access_nil_bucket l id now hl] at h
    cases h
  · by_cases hw : now < b.ResetAt
    · rcases lt_trichotomy b.Tokens 0 with ht | ht | ht
      · rw [Access_should_reset l id now b hl (Or.inr ht)] at h
        cases h
        exact Or.inr (Or.inr (Or.inr (Or.inr ⟨b, rfl, Or.inr ht, rfl⟩)))
      · rw [Access_no_token l id now b hl hw ht] at h
        cases h
        exact Or.inr (Or.inr (Or.inl ⟨b, rfl, hw, ht, rfl⟩))
      · rw [Access_ok l id now b hl hw ht] at h
        cases h
        exact Or.inr (Or.inr (Or.inr (Or.inl ⟨b, rfl, hw, ht, rfl⟩)))
    · rw [Access_should_reset l id now b hl (Or.inl (not_lt.1 hw))] at h
      cases h
      exact Or.inr (Or.inr (Or.inr (Or.inr ⟨b, rfl, Or.inl (not_lt.1 hw), rfl⟩)))

/-! ## Evaluation of a bucket, by case -/

theorem Bucket_Access_expired (b : Bucket) (now : Int)
    (h : b.Access now = accessShouldReset) : b.ResetAt ≤ now ∨ b.Tokens < 0 := by
  unfold Bucket.Access accessOk accessNoToken accessShouldReset at h
  split_ifs at h <;> omega

theorem Bucket_Access_active (b : Bucket) (now : Int)
    (h : b.Access now ≠ accessShouldReset) : now < b.ResetAt ∧ 0 ≤ b.Tokens := by
  unfold Bucket.Access accessOk accessNoToken accessShouldReset at h
  split_ifs at h <;> omega

theorem Bucket_Access_of_neg (b : Bucket) (now : Int) (h : b.Tokens < 0) :
    b.Access now = accessShouldReset := by
  unfold Bucket.Access
  rw [if_neg (by omega), if_neg (by omega)]

/-! ## Evaluation and construction of a bucket -/

/-- C11, as stated, fails: the bucket with `ResetAt = 100` and `Tokens = -1` evaluated
at `now = 0` yields `SHOULD_RESET` although `ResetAt <= now` does not hold. -/
theorem negative_tokens_should_reset_inside_window :
    ¬ ((Bucket.mk 100 (-1)).Access 0 = accessShouldReset ↔
      (Bucket.mk 100 (-1)).ResetAt ≤ 0) := by
  decide

/-- C11, amended: `Bucket.Access` returns `OK` exactly when `ResetAt > now` and
`Tokens > 0`, `NO_TOKEN` exactly when `ResetAt > now` and `Tokens = 0`, and
`SHOULD_RESET` exactly when `ResetAt <= now` or `Tokens < 0`. -/
theorem Bucket_Access_iff (b : Bucket) (now : Int) :
    (b.Access now = accessOk ↔ (b.ResetAt > now ∧ b.Tokens > 0)) ∧
    (b.Access now = accessNoToken ↔ (b.ResetAt > now ∧ b.Tokens = 0)) ∧
    (b.Access now = accessShouldReset ↔ (b.ResetAt ≤ now ∨ b.Tokens < 0)) := by
  unfold Bucket.Access accessOk accessNoToken accessShouldReset
  by_cases h1 : b.ResetAt > now ∧ b.Tokens = 0
  · rw [if_pos h1]
    refine ⟨⟨fun h => absurd h (by decide), fun h => by omega⟩,
      ⟨fun _ => h1, fun _ => rfl⟩, ⟨fun h => absurd h (by decide), fun h => by omega⟩⟩
  · rw [if_neg h1]
    by_cases h2 : b.ResetAt > now ∧ b.Tokens > 0
    · rw [if_pos h2]
      refine ⟨⟨fun _ => h2, fun _ => rfl⟩,
        ⟨fun h => absurd h (by decide), fun h => by omega⟩,
        ⟨fun h => absurd h (by decide), fun h => by omega⟩⟩
    · rw [if_neg h2]
      refine ⟨⟨fun h => absurd h (by decide), fun h => absurd h h2⟩,
        ⟨fun h => absurd h (by decide), fun h => absurd h h1⟩,
        ⟨fun _ => by omega, fun _ => rfl⟩⟩

/-- C12: `NewBucket(cycle, tokens)` at clock reading `now` returns `nil` exactly when
`cycle <= 0` or `tokens < 0`; otherwise it returns a bucket with the given token count
and `ResetAt = now + cycle` (the `int64` sum, hence the exact sum whenever that is
representable). -/
theorem NewBucket_nil_iff (now resetCyc tokens : Int) :
    (NewBucket now resetCyc tokens = none ↔ (resetCyc ≤ 0 ∨ tokens < 0)) ∧
    (¬ (resetCyc ≤ 0 ∨ tokens < 0) →
      ∃ b, NewBucket now resetCyc tokens = some b ∧ b.Tokens = tokens ∧
        b.ResetAt = wrap64 (now + resetCyc) ∧
        (inInt64 (now + resetCyc) → b.ResetAt = now + resetCyc)) := by
  unfold NewBucket after
  by_cases h : resetCyc ≤ 0 ∨ tokens < 0
  · rw [if_pos h]
    exact ⟨⟨fun _ => h, fun _ => rfl⟩, fun hn => absurd h hn⟩
  · rw [if_neg h]
    refine ⟨⟨fun he => (by cases he), fun hn => absurd hn h⟩,
      fun _ => ⟨_, rfl, rfl, rfl, ?_⟩⟩
    intro hr
    exact wrap64_of_inInt64 hr

/-! ## The setters of the reset cycle and the reset-token count -/

/-- The pair returned by `Access`, with the bucket map it leaves. -/
theorem Access_tracked_active_eq (l l' : MemLimiter) (id : String) (now : Int) (b : Bucket)
    (hb : l'.buckets = l.buckets)
    (hid : l.buckets.lookup id = some (some b)) (hact : b.Access now ≠ accessShouldReset) :
    (l'.Access id now).map (fun r => (r.limiter.buckets, r.allowed, r.err)) =
      (l.Access id now).map (fun r => (r.limiter.buckets, r.allowed, r.err)) := by
  have hid' : l'.buckets.lookup id = some (some b) := by rw [hb]; exact hid
  obtain ⟨hw, ht⟩ := Bucket_Access_active b now hact
  rcases eq_or_lt_of_le ht with h0 | hpos
  · rw [Access_no_token l' id now b hid' hw h0.symm, Access_no_token l id now b hid hw h0.symm]
    simp [hb]
  · rw [Access_ok l' id now b hid' hw hpos, Access_ok l id now b hid hw hpos]
    simp [hb]

/-- C13: `SetResetCyc` and `SetRstTokens` write their own field only: the bucket map
(tracked identifiers, every bucket's `ResetAt` and `Tokens`) and the other configuration
fields are as before; an `Access` that finds a tracked bucket not due for a refill
returns the same pair and leaves the same buckets as without the setter call; a refill
or a creation after the call uses the value set. -/
theorem setters_frame (l : MemLimiter) (c t : Int) :
    ((l.SetResetCyc c).buckets = l.buckets ∧ (l.SetResetCyc c).GetCap = l.GetCap ∧
      (l.SetResetCyc c).GetRstTokens = l.GetRstTokens ∧ (l.SetResetCyc c).GetResetCyc = c) ∧
    ((l.SetRstTokens t).buckets = l.buckets ∧ (l.SetRstTokens t).GetCap = l.GetCap ∧
      (l.SetRstTokens t).GetResetCyc = l.GetResetCyc ∧
      (l.SetRstTokens t).GetRstTokens = t) ∧
    (∀ id now b, l.buckets.lookup id = some (some b) → b.Access now ≠ accessShouldReset →
      ((l.SetResetCyc c).Access id now).map (fun r => (r.limiter.buckets, r.allowed, r.err))
        = (l.Access id now).map (fun r => (r.limiter.buckets, r.allowed, r.err)) ∧
      ((l.SetRstTokens t).Access id now).map (fun r => (r.limiter.buckets, r.allowed, r.err))
        = (l.Access id now).map (fun r => (r.limiter.buckets, r.allowed, r.err))) ∧
    (∀ id now b, l.buckets.lookup id = some (some b) → b.Access now = accessShouldReset →
      (∃ r, (l.SetResetCyc c).Access id now = some r ∧
        r.limiter.buckets.lookup id = some (some (b.Reset now c l.rstTokens))) ∧
      (∃ r, (l.SetRstTokens t).Access id now = some r ∧
        r.limiter.buckets.lookup id = some (some (b.Reset now l.rstCyc t)))) ∧
    (∀ id now, l.buckets.lookup id = none → l.GetSize < l.GetCap →
      (∃ r, (l.SetResetCyc c).Access id now = some r ∧
        r.limiter.buckets.lookup id = some (NewBucket now c l.rstTokens)) ∧
      (∃ r, (l.SetRstTokens t).Access id now = some r ∧
        r.limiter.buckets.lookup id = some (NewBucket now l.rstCyc t))) := by
  refine ⟨⟨rfl, rfl, rfl, rfl⟩, ⟨rfl, rfl, rfl, rfl⟩, ?_, ?_, ?_⟩
  · intro id now b hid hact
    exact ⟨Access_tracked_active_eq l (l.SetResetCyc c) id now b rfl hid hact,
      Access_tracked_active_eq l (l.SetRstTokens t) id now b rfl hid hact⟩
  · intro id now b hid hres
    have hexp := Bucket_Access_expired b now hres
    have hmem : id ∈ l.buckets := mem_of_lookup_eq_some hid
    exact ⟨⟨_, Access_should_reset (l.SetResetCyc c) id now b hid hexp,
        lookup_replace_self _ _ _ hmem⟩,
      ⟨_, Access_should_reset (l.SetRstTokens t) id now b hid hexp,
        lookup_replace_self _ _ _ hmem⟩⟩
  · intro id now hid hroom
    exact ⟨⟨_, Access_untracked_room (l.SetResetCyc c) id now hid hroom,
        AList.lookup_insert _⟩,
      ⟨_, Access_untracked_room (l.SetRstTokens t) id now hid hroom,
        AList.lookup_insert _⟩⟩

/-! ## Refill with a reset-token count of 0 -/

/-- C15, as stated, fails: the bucket refilled at `now = 0` with cycle 60 and refill
amount 0 holds -1 tokens, and its evaluation at 30, inside the window that ends at 60,
is not `OK`. -/
theorem zero_refill_not_ok_inside_window :
    ((Bucket.mk 0 0).Reset 0 60 0).Tokens = -1 ∧
    30 < ((Bucket.mk 0 0).Reset 0 60 0).ResetAt ∧
    ((Bucket.mk 0 0).Reset 0 60 0).Access 30 ≠ accessOk := by
  decide

/-- C15, amended: after a refill with refill amount 0 the bucket holds -1 tokens, and
every later evaluation of that bucket, at a time inside the window or not, returns
`SHOULD_RESET` (never `OK`). -/
theorem zero_refill_should_reset (b : Bucket) (now resetCyc t : Int) :
    (b.Reset now resetCyc 0).Tokens = -1 ∧
    (b.Reset now resetCyc 0).Access t = accessShouldReset ∧
    (b.Reset now resetCyc 0).Access t ≠ accessOk := by
  have htok : (b.Reset now resetCyc 0).Tokens = -1 := by
    show wrap64 (0 - 1) = -1
    decide
  have hres : (b.Reset now resetCyc 0).Access t = accessShouldReset :=
    Bucket_Access_of_neg _ t (by rw [htok]; decide)
  refine ⟨htok, hres, ?_⟩
  rw [hres]
  decide

/-! ## Tracked identifiers stay tracked -/

/-- C17: no public call removes a tracked identifier.  With the limiter after the call
being the one before it when the call panics, every identifier tracked before a call
(`Access` with any identifier, a setter, a getter) is tracked after it, and the number
of tracked identifiers does not decrease. -/
theorem tracked_identifiers_kept (l : MemLimiter) (op : Op) :
    (∀ id, id ∈ l.buckets → id ∈ ((l.apply op).getD l).buckets) ∧
    l.GetSize ≤ ((l.apply op).getD l).GetSize := by
  unfold MemLimiter.GetSize
  cases op with
  | access id now =>
    simp only [MemLimiter.apply]
    rcases hA : l.Access id now with _ | r
    · exact ⟨fun _ h => h, le_refl _⟩
    · simp only [Option.map_some', Option.getD_some]
      rcases Access_limiter_cases l id now r hA with he | ⟨hid, _, v, he⟩ | ⟨_, v, he⟩
      · rw [he]
        exact ⟨fun _ h => h, le_refl _⟩
      · rw [he]
        refine ⟨fun k hk => (AList.mem_insert _).2 (Or.inr hk), ?_⟩
        simp only
        rw [len_insert_of_lookup_none _ _ _ hid]
        omega
      · rw [he]
        refine ⟨fun k hk => AList.mem_replace.2 hk, ?_⟩
        simp only
        rw [len_replace]
  | setCap cap =>
    simp only [MemLimiter.apply, Option.getD_some, MemLimiter.SetCap]
    split
    · exact ⟨fun _ h => h, le_refl _⟩
    · exact ⟨fun _ h => h, le_refl _⟩
  | setResetCyc c => exact ⟨fun _ h => h, le_refl _⟩
  | setRstTokens t => exact ⟨fun _ h => h, le_refl _⟩
  | getSize => exact ⟨fun _ h => h, le_refl _⟩
  | getCap => exact ⟨fun _ h => h, le_refl _⟩
  | getResetCyc => exact ⟨fun _ h => h, le_refl _⟩
  | getRstTokens => exact ⟨fun _ h => h, le_refl _⟩

/-! ## Identifiers bound to `nil` -/

/-- C18 at the failing input `New(1, 1, 0); SetResetCyc(0); Access("a")`: the reached
state binds `"a"` to `nil`, and `Access("a")` on it panics at every clock reading. -/
theorem nil_bucket_reachable_and_Access_panics :
    ∃ l, Reachable l ∧ l.buckets.lookup "a" = some none ∧
      ∀ now, l.Access "a" now = none := by
  refine ⟨⟨(∅ : BucketMap).insert "a" none, 1, 0, 0⟩, ?_, by decide, ?_⟩
  · refine ⟨1, 1, 0, [.setResetCyc 0, .access "a" 1700000000], ⟨∅, 1, 1, 0⟩,
      by simp [New], ?_⟩
    have hA : (MemLimiter.mk ∅ 1 0 0).Access "a" 1700000000
        = some ⟨⟨(∅ : BucketMap).insert "a" none, 1, 0, 0⟩, true, none⟩ := by
      rw [Access_untracked_room _ _ _ (by decide) (by decide)]
      simp [NewBucket]
    simp [MemLimiter.run, MemLimiter.apply, MemLimiter.SetResetCyc, hA]
  · intro now
    exact Access_nil_bucket _ _ _ (by decide)

/-! ## A reset-token count of 0 -/

theorem ZeroRefilled_Access (l : MemLimiter) (id : String) (now : Int)
    (h : ZeroRefilled l id) :
    ∃ r, l.Access id now = some r ∧ r.allowed = true ∧ r.err = none ∧
      r.limiter.rstTokens = 0 ∧
      r.limiter.buckets.lookup id = some (some ⟨wrap64 (now + l.rstCyc), -1⟩) := by
  obtain ⟨h0, b, hb, hneg⟩ := h
  refine ⟨_, Access_should_reset l id now b hb (Or.inr (by omega)), rfl, rfl, h0, ?_⟩
  have hr : b.Reset now l.rstCyc l.rstTokens = ⟨wrap64 (now + l.rstCyc), -1⟩ := by
    unfold Bucket.Reset after
    rw [h0]
    rfl
  simp only [hr]
  exact lookup_replace_self _ _ _ (mem_of_lookup_eq_some hb)

theorem ZeroRefilled_apply (l l' : MemLimiter) (id : String) (op : Op)
    (h : ZeroRefilled l id) (hop : op.keepsRstTokens) (happ : l.apply op = some l') :
    ZeroRefilled l' id := by
  cases op with
  | access id' now =>
    simp only [MemLimiter.apply, Option.map_eq_some'] at happ
    obtain ⟨r, hr, rfl⟩ := happ
    by_cases hk : id' = id
    · subst hk
      obtain ⟨r', hr', _, _, h0, hl⟩ := ZeroRefilled_Access l id' now h
      rw [hr] at hr'
      cases hr'
      exact ⟨h0, _, hl, rfl⟩
    · obtain ⟨h0, b, hb, hneg⟩ := h
      have hne : id ≠ id' := fun e => hk e.symm
      rcases Access_limiter_cases l id' now r hr with he | ⟨_, _, v, he⟩ | ⟨_, v, he⟩
      · rw [he]
        exact ⟨h0, b, hb, hneg⟩
      · rw [he]
        exact ⟨h0, b, by
          show (l.buckets.insert id' v).lookup id = some (some b)
          rw [AList.lookup_insert_ne hne]
          exact hb, hneg⟩
      · rw [he]
        exact ⟨h0, b, by
          show (l.buckets.replace id' v).lookup id = some (some b)
          rw [lookup_replace_ne _ _ _ _ hne]
          exact hb, hneg⟩
  | setCap cap =>
    simp only [MemLimiter.apply, Option.some.injEq] at happ
    subst happ
    unfold MemLimiter.SetCap
    split
    · exact h
    · exact h
  | setResetCyc c =>
    simp only [MemLimiter.apply, Option.some.injEq] at happ
    subst happ
    exact h
  | setRstTokens t => exact absurd hop (by simp [Op.keepsRstTokens])
  | getSize => simp only [MemLimiter.apply, Option.some.injEq] at happ; subst happ; exact h
  | getCap => simp only [MemLimiter.apply, Option.some.injEq] at happ; subst happ; exact h
  | getResetCyc =>
    simp only [MemLimiter.apply, Option.some.injEq] at happ; subst happ; exact h
  | getRstTokens =>
    simp only [MemLimiter.apply, Option.some.injEq] at happ; subst happ; exact h

theorem ZeroRefilled_run (id : String) (ops : List Op) :
    ∀ (l l' : MemLimiter), ZeroRefilled l id → (∀ op ∈ ops, op.keepsRstTokens) →
      l.run ops = some l' → ZeroRefilled l' id := by
  induction ops with
  | nil =>
    intro l l' h _ hrun
    simp only [MemLimiter.run, Option.some.injEq] at hrun
    subst hrun
    exact h
  | cons op ops ih =>
    intro l l' h hops hrun
    simp only [MemLimiter.run, Option.bind_eq_some] at hrun
    obtain ⟨l₁, h₁, h₂⟩ := hrun
    exact ih l₁ l' (ZeroRefilled_apply l l₁ id op h (hops op (by simp)) h₁)
      (fun o ho => hops o (by simp [ho])) h₂

/-- C19: for a limiter whose reset-token count is 0 and a tracked identifier whose
bucket holds -1 tokens, after any further calls that leave the reset-token count alone
(`Access` for any identifier, `SetCap`, `SetResetCyc`, getters) an `Access` for that
identifier at any clock reading returns `(true, nil)`: its bucket evaluates to
`SHOULD_RESET` at every time and the refill leaves it at -1 tokens again. -/
theorem zero_tokens_never_throttled (l l' : MemLimiter) (id : String) (b : Bucket)
    (ops : List Op) (h0 : l.GetRstTokens = 0)
    (hb : l.buckets.lookup id = some (some b)) (hneg : b.Tokens = -1)
    (hops : ∀ op ∈ ops, op.keepsRstTokens) (hrun : l.run ops = some l') :
    ∀ now, ∃ r b₁ b₂, l'.Access id now = some r ∧ r.allowed = true ∧ r.err = none ∧
      l'.buckets.lookup id = some (some b₁) ∧ (∀ t, b₁.Access t = accessShouldReset) ∧
      r.limiter.buckets.lookup id = some (some b₂) ∧ b₂.Tokens = -1 ∧
      r.limiter.GetRstTokens = 0 := by
  intro now
  have hz : ZeroRefilled l' id := ZeroRefilled_run id ops l l' ⟨h0, b, hb, hneg⟩ hops hrun
  obtain ⟨r, hr, ha, he, hr0, hl⟩ := ZeroRefilled_Access l' id now hz
  obtain ⟨_, b₁, hb₁, hneg₁⟩ := hz
  exact ⟨r, b₁, _, hr, ha, he, hb₁,
    fun t => Bucket_Access_of_neg b₁ t (by omega), hl, rfl, hr0⟩

theorem zero_tokens_never_throttled_witness :
    sampleZero.GetRstTokens = 0 ∧
    sampleZero.buckets.lookup "a" = some (some ⟨60, -1⟩) ∧
    sampleZero.run [.access "b" 5, .setCap 7, .access "a" 10] = some sampleZeroLater ∧
    ∀ now, ∃ r b₁ b₂, sampleZeroLater.Access "a" now = some r ∧ r.allowed = true ∧
      r.err = none ∧
      sampleZeroLater.buckets.lookup "a" = some (some b₁) ∧
      (∀ t, b₁.Access t = accessShouldReset) ∧
      r.limiter.buckets.lookup "a" = some (some b₂) ∧ b₂.Tokens = -1 ∧
      r.limiter.GetRstTokens = 0 :=
  ⟨by decide, by decide, by rfl,
    zero_tokens_never_throttled sampleZero sampleZeroLater "a" ⟨60, -1⟩
      [.access "b" 5, .setCap 7, .access "a" 10] (by decide) (by decide) (by decide)
      (by intro op hop; simp at hop; rcases hop with rfl | rfl | rfl <;> trivial)
      (by rfl)⟩

/-! ## Token counts stay non-negative -/

theorem TokensInv_Access (l : MemLimiter) (id : String) (now : Int) (r : AccessResult)
    (hinv : TokensInv l) (h : l.Access id now = some r) : TokensInv r.limiter := by
  obtain ⟨h1, hmax, hbk⟩ := hinv
  rcases Access_result_cases l id now r h with
    ⟨_, _, rfl⟩ | ⟨_, _, rfl⟩ | ⟨_, _, _, _, rfl⟩ | ⟨b, hb, _, hpos, rfl⟩ | ⟨b, hb, _, rfl⟩
  · exact ⟨h1, hmax, hbk⟩
  · refine ⟨h1, hmax, ?_⟩
    intro k b hk
    by_cases hki : k = id
    · subst hki
      have hk' : (l.buckets.insert k (NewBucket now l.rstCyc l.rstTokens)).lookup k
          = some (some b) := hk
      rw [AList.lookup_insert] at hk'
      unfold NewBucket at hk'
      split_ifs at hk' with hc
      · simp at hk'
      · simp only [Option.some.injEq] at hk'
        subst hk'
        exact ⟨le_trans (by decide) h1, hmax⟩
    · have hk' : (l.buckets.insert id (NewBucket now l.rstCyc l.rstTokens)).lookup k
          = some (some b) := hk
      rw [AList.lookup_insert_ne hki] at hk'
      exact hbk k b hk'
  · exact ⟨h1, hmax, hbk⟩
  · refine ⟨h1, hmax, ?_⟩
    intro k b' hk
    by_cases hki : k = id
    · subst hki
      have hk' : some (some b.Minus) = some (some b') := by
        rw [← hk]
        exact (lookup_replace_self _ _ _ (mem_of_lookup_eq_some hb)).symm
      cases hk'
      have hb' := hbk k b hb
      show 0 ≤ wrap64 (b.Tokens - 1) ∧ wrap64 (b.Tokens - 1) ≤ 9223372036854775807
      unfold wrap64
      omega
    · exact hbk k b' (by
        rw [← hk]
        exact (lookup_replace_ne _ _ _ _ hki).symm)
  · refine ⟨h1, hmax, ?_⟩
    intro k b' hk
    by_cases hki : k = id
    · subst hki
      have hk' : some (some (b.Reset now l.rstCyc l.rstTokens)) = some (some b') := by
        rw [← hk]
        exact (lookup_replace_self _ _ _ (mem_of_lookup_eq_some hb)).symm
      cases hk'
      show 0 ≤ wrap64 (l.rstTokens - 1) ∧ wrap64 (l.rstTokens - 1) ≤ 9223372036854775807
      unfold wrap64
      omega
    · exact hbk k b' (by
        rw [← hk]
        exact (lookup_replace_ne _ _ _ _ hki).symm)

theorem TokensInv_run (ops : List Op) :
    ∀ (l l' : MemLimiter), TokensInv l → (∀ op ∈ ops, op.inRange) →
      tokensNeverLowered l.rstTokens ops → l.run ops = some l' → TokensInv l' := by
  induction ops with
  | nil =>
    intro l l' hinv _ _ hrun
    simp only [MemLimiter.run, Option.some.injEq] at hrun
    subst hrun
    exact hinv
  | cons op ops ih =>
    intro l l' hinv hops hmono hrun
    simp only [MemLimiter.run, Option.bind_eq_some] at hrun
    obtain ⟨l₁, h₁, h₂⟩ := hrun
    have hrest : ∀ o ∈ ops, o.inRange := fun o ho => hops o (by simp [ho])
    have hop : op.inRange := hops op (by simp)
    cases op with
    | access id now =>
      simp only [MemLimiter.apply, Option.map_eq_some'] at h₁
      obtain ⟨r, hr, rfl⟩ := h₁
      have hcfg : r.limiter.rstTokens = l.rstTokens := by
        rcases Access_limiter_cases l id now r hr with he | ⟨_, _, v, he⟩ | ⟨_, v, he⟩ <;>
          rw [he]
      exact ih _ l' (TokensInv_Access l id now r hinv hr) hrest
        (by rw [hcfg]; exact hmono) h₂
    | setCap cap =>
      simp only [MemLimiter.apply, Option.some.injEq] at h₁
      subst h₁
      have hinv' : TokensInv (l.SetCap cap) := by
        unfold MemLimiter.SetCap
        split
        · exact hinv
        · exact hinv
      have hcfg : (l.SetCap cap).rstTokens = l.rstTokens := by
        unfold MemLimiter.SetCap
        split <;> rfl
      exact ih _ l' hinv' hrest (by rw [hcfg]; exact hmono) h₂
    | setResetCyc c =>
      simp only [MemLimiter.apply, Option.some.injEq] at h₁
      subst h₁
      exact ih (l.SetResetCyc c) l' hinv hrest hmono h₂
    | setRstTokens t =>
      simp only [MemLimiter.apply, Option.some.injEq] at h₁
      subst h₁
      obtain ⟨hle, hmono'⟩ := hmono
      have ht : inInt64 t := hop
      exact ih (l.SetRstTokens t) l' ⟨le_trans hinv.1 hle, ht.2, hinv.2.2⟩ hrest hmono' h₂
    | getSize =>
      simp only [MemLimiter.apply, Option.some.injEq] at h₁
      subst h₁
      exact ih _ l' hinv hrest hmono h₂
    | getCap =>
      simp only [MemLimiter.apply, Option.some.injEq] at h₁
      subst h₁
      exact ih _ l' hinv hrest hmono h₂
    | getResetCyc =>
      simp only [MemLimiter.apply, Option.some.injEq] at h₁
      subst h₁
      exact ih _ l' hinv hrest hmono h₂
    | getRstTokens =>
      simp only [MemLimiter.apply, Option.some.injEq] at h₁
      subst h₁
      exact ih _ l' hinv hrest hmono h₂

/-- C16: for a limiter constructed with a reset-token count of at least 1, after any
calls (`Access`, setters, getters, with `int64` / `int` arguments) none of which lowers
the reset-token count, every tracked bucket holds at least 0 tokens; and an `Access`
that finds a tracked bucket takes a token from it (`Minus`) only when the bucket
evaluates to `OK`, which needs `Tokens > 0`: otherwise it leaves the bucket as it is or
refills it. -/
theorem tokens_nonneg_of_reachable (cap rstCyc rstTokens : Int) (ops : List Op)
    (l₀ l : MemLimiter) (hnew : New cap rstCyc rstTokens = some l₀)
    (htok : 1 ≤ rstTokens) (hint : inInt64 rstTokens)
    (hops : ∀ op ∈ ops, op.inRange) (hmono : tokensNeverLowered rstTokens ops)
    (hrun : l₀.run ops = some l) :
    (∀ id b, l.buckets.lookup id = some (some b) → 0 ≤ b.Tokens) ∧
    (∀ id now b, l.buckets.lookup id = some (some b) →
      ∃ r, l.Access id now = some r ∧
        ((b.Access now = accessOk ∧ 0 < b.Tokens ∧
            r.limiter.buckets.lookup id = some (some b.Minus)) ∨
          (b.Access now = accessNoToken ∧ r.limiter = l) ∨
          (b.Access now = accessShouldReset ∧
            r.limiter.buckets.lookup id
              = some (some (b.Reset now l.GetResetCyc l.GetRstTokens))))) := by
  have h₀ : l₀ = ⟨∅, cap, rstCyc, rstTokens⟩ := by
    unfold New at hnew
    split_ifs at hnew
    cases hnew
    rfl
  have hinv₀ : TokensInv l₀ := by
    rw [h₀]
    exact ⟨htok, hint.2, fun id b hb => by simp at hb⟩
  have hinv : TokensInv l :=
    TokensInv_run ops l₀ l hinv₀ hops (by rw [h₀]; exact hmono) hrun
  refine ⟨fun id b hb => (hinv.2.2 id b hb).1, ?_⟩
  intro id now b hb
  have hmem : id ∈ l.buckets := mem_of_lookup_eq_some hb
  have hnn : 0 ≤ b.Tokens := (hinv.2.2 id b hb).1
  by_cases hw : now < b.ResetAt
  · rcases eq_or_lt_of_le hnn with h0 | hpos
    · refine ⟨_, Access_no_token l id now b hb hw h0.symm, Or.inr (Or.inl ⟨?_, rfl⟩)⟩
      unfold Bucket.Access
      rw [if_pos ⟨hw, h0.symm⟩]
    · refine ⟨_, Access_ok l id now b hb hw hpos, Or.inl ⟨?_, hpos, ?_⟩⟩
      · unfold Bucket.Access
        rw [if_neg (by omega), if_pos ⟨hw, hpos⟩]
      · exact lookup_replace_self _ _ _ hmem
  · refine ⟨_, Access_should_reset l id now b hb (Or.inl (not_lt.1 hw)),
      Or.inr (Or.inr ⟨?_, ?_⟩)⟩
    · unfold Bucket.Access
      rw [if_neg (by omega), if_neg (by omega)]
    · exact lookup_replace_self _ _ _ hmem

theorem tokens_nonneg_of_reachable_witness :
    New 2 60 1 = some ⟨∅, 2, 60, 1⟩ ∧
    tokensNeverLowered 1
      [.access "a" 0, .access "a" 1, .access "a" 2, .setRstTokens 3, .access "a" 100] ∧
    (MemLimiter.mk ∅ 2 60 1).run
      [.access "a" 0, .access "a" 1, .access "a" 2, .setRstTokens 3, .access "a" 100]
        = some sampleRaised ∧
    ((∀ id b, sampleRaised.buckets.lookup id = some (some b) → 0 ≤ b.Tokens) ∧
    (∀ id now b, sampleRaised.buckets.lookup id = some (some b) →
      ∃ r, sampleRaised.Access id now = some r ∧
        ((b.Access now = accessOk ∧ 0 < b.Tokens ∧
            r.limiter.buckets.lookup id = some (some b.Minus)) ∨
          (b.Access now = accessNoToken ∧ r.limiter = sampleRaised) ∨
          (b.Access now = accessShouldReset ∧
            r.limiter.buckets.lookup id
              = some (some (b.Reset now sampleRaised.GetResetCyc
                  sampleRaised.GetRstTokens)))))) :=
  ⟨by rfl, by simp [tokensNeverLowered], by rfl,
    tokens_nonneg_of_reachable 2 60 1
      [.access "a" 0, .access "a" 1, .access "a" 2, .setRstTokens 3, .access "a" 100]
      ⟨∅, 2, 60, 1⟩ sampleRaised (by rfl) (by decide) (by decide)
      (by
        intro op hop
        simp at hop
        rcases hop with rfl | rfl | rfl | rfl | rfl <;> simp [Op.inRange, inInt64])
      (by simp [tokensNeverLowered]) (by rfl)⟩

/-! ## Overflow of the reset time -/

/-- C20, as stated, fails: with `now = 1700000000` and `cycle = 2^63 - 1` the sum wraps,
so the bucket created by `NewBucket`, and the one refilled by `Reset`, have
`ResetAt <= now` and the created one evaluates to `SHOULD_RESET` at that instant; and
without any wrap (`cycle = 60`), a bucket refilled with refill amount 0 evaluates to
`SHOULD_RESET` at the instant of the refill. -/
theorem resetAt_wraps_below_now :
    (∃ b, NewBucket 1700000000 9223372036854775807 1 = some b ∧
      b.ResetAt ≤ 1700000000 ∧ b.Access 1700000000 = accessShouldReset) ∧
    ((Bucket.mk 0 0).Reset 1700000000 9223372036854775807 1).ResetAt ≤ 1700000000 ∧
    ((Bucket.mk 0 0).Reset 1700000000 60 0).Access 1700000000 = accessShouldReset := by
  refine ⟨⟨⟨wrap64 (1700000000 + 9223372036854775807), 1⟩, by decide, by decide, by decide⟩,
    by decide, by decide⟩

/-- C20, amended: for every `cycle > 0` and `now >= 0` whose sum is at most `2^63 - 1`,
a bucket created by `NewBucket` or refilled by `Reset` at `now` has
`ResetAt = now + cycle > now`; its evaluation at that same instant is not `SHOULD_RESET`
when it was created by `NewBucket`, or refilled with a refill amount that is an `int`
of at least 1. -/
theorem resetAt_after_now_of_no_overflow (now resetCyc tokens : Int) (b : Bucket)
    (hcyc : 0 < resetCyc) (hnow : 0 ≤ now)
    (hsum : now + resetCyc ≤ 9223372036854775807) :
    (0 ≤ tokens → ∃ nb, NewBucket now resetCyc tokens = some nb ∧
      nb.ResetAt = now + resetCyc ∧ now < nb.ResetAt ∧
      nb.Access now ≠ accessShouldReset) ∧
    (b.Reset now resetCyc tokens).ResetAt = now + resetCyc ∧
    now < (b.Reset now resetCyc tokens).ResetAt ∧
    (1 ≤ tokens → tokens ≤ 9223372036854775807 →
      (b.Reset now resetCyc tokens).Access now ≠ accessShouldReset) := by
  have hw : wrap64 (now + resetCyc) = now + resetCyc :=
    wrap64_of_inInt64 ⟨by omega, hsum⟩
  have hR : (b.Reset now resetCyc tokens).ResetAt = now + resetCyc := hw
  refine ⟨?_, hR, by rw [hR]; omega, ?_⟩
  · intro ht
    refine ⟨⟨now + resetCyc, tokens⟩, ?_, rfl, by show now < now + resetCyc; omega, ?_⟩
    · unfold NewBucket after
      rw [if_neg (by omega), hw]
    · intro hres
      have := Bucket_Access_expired _ _ hres
      simp only at this
      omega
  · intro h1 hmax hres
    have hexp := Bucket_Access_expired _ _ hres
    have hT : (b.Reset now resetCyc tokens).Tokens = tokens - 1 :=
      wrap64_of_inInt64 ⟨by omega, by omega⟩
    rw [hR, hT] at hexp
    omega

theorem resetAt_after_now_of_no_overflow_witness :
    (0 : Int) < 60 ∧ (0 : Int) ≤ 1700000000 ∧
    ((0 : Int) ≤ 1 → ∃ nb, NewBucket 1700000000 60 1 = some nb ∧
      nb.ResetAt = 1700000000 + 60 ∧ 1700000000 < nb.ResetAt ∧
      nb.Access 1700000000 ≠ accessShouldReset) ∧
    ((Bucket.mk 0 0).Reset 1700000000 60 1).ResetAt = 1700000000 + 60 ∧
    1700000000 < ((Bucket.mk 0 0).Reset 1700000000 60 1).ResetAt ∧
    ((1 : Int) ≤ 1 → (1 : Int) ≤ 9223372036854775807 →
      ((Bucket.mk 0 0).Reset 1700000000 60 1).Access 1700000000 ≠ accessShouldReset) :=
  ⟨by decide, by decide,
    resetAt_after_now_of_no_overflow 1700000000 60 1 ⟨0, 0⟩ (by decide) (by decide)
      (by decide)⟩

end Limiter
